import Mathlib

/-!
Verification of the currency-swap core of the 99Tech_solution repository
(problem 2: `CurrencySwapForm.tsx`, `useTokenPrices.ts`, `useSwap.ts`,
`utils/formatters.ts`, `utils/validators.ts`).

Numbers are modelled as exact rationals (`ℚ`): the source computes with JS
numbers, but every property of interest here is about the ideal decimal
arithmetic the code expresses (`Math.floor(x * 1e6) / 1e6`, `parseFloat`,
`toFixed(6)`), so the embedding uses exact arithmetic.  Strings are Lean
`String`s; JS string builtins used by the source (`parseFloat`, `toFixed`,
regex test) are embedded as executable Lean functions below.

React state (`useState`, hook state) is flattened into one record `SysState`;
each event handler of the component becomes a state-transition function, and
the asynchronous parts (`executeSwap`'s simulated settlement, the price
poller) become explicit transitions parameterised by their nondeterministic
outcome.  `Reachable` is the induced transition system.
-/

namespace SwapCore

/-- JS `Number.MAX_SAFE_INTEGER` (2^53 - 1), used by `validateSwapAmount`. -/
def maxSafeInteger : ℚ := 9007199254740991

/-- Numeric value of a decimal digit character (`'0'` ↦ 0, …, `'9'` ↦ 9). -/
def digitVal (c : Char) : Nat := c.toNat - 48

/-- Value of a digit list, most significant digit first. -/
def digitsVal (l : List Char) : Nat := l.foldl (fun a c => 10 * a + digitVal c) 0

/-- Decimal digit character for a digit `n < 10`. -/
def digitChar : Nat → Char
  | 0 => '0'
  | 1 => '1'
  | 2 => '2'
  | 3 => '3'
  | 4 => '4'
  | 5 => '5'
  | 6 => '6'
  | 7 => '7'
  | 8 => '8'
  | _ => '9'

/-- Decimal digit list of a natural number, fuel-indexed so that the kernel
can evaluate it; any `fuel > n` gives the digits of `n`. -/
def natDigitsAux : Nat → Nat → List Char
  | 0, _ => []
  | fuel + 1, n =>
    if n < 10 then [digitChar n]
    else natDigitsAux fuel (n / 10) ++ [digitChar (n % 10)]

/-- Decimal digit list of a natural number (`7000` ↦ `['7','0','0','0']`). -/
def natDigits (n : Nat) : List Char := natDigitsAux (n + 1) n

/-- Left-pad a digit list with `'0'` up to `k` characters (the zero padding
`Number.toFixed` performs on the fraction part). -/
def padZeros (k : Nat) (l : List Char) : List Char :=
  List.replicate (k - l.length) '0' ++ l

/-- Decimal rendering of the nonnegative value `k / 10^d` with exactly `d`
fraction digits: the behaviour of JS `(k / 10^d).toFixed(d)` when `k / 10^d`
has at most `d` decimal places (always the case at the call sites below). -/
def renderFixed (k : Nat) (d : Nat) : String :=
  if d = 0 then String.mk (natDigits k)
  else String.mk (natDigits (k / 10 ^ d) ++ '.' :: padZeros d (natDigits (k % 10 ^ d)))

/-- `truncateDecimals` from `src/utils/formatters.ts`:
`Math.floor(value * 10^decimals) / 10^decimals` rendered via `toFixed(decimals)`.
`Math.floor` rounds toward negative infinity, hence `Int.floor`; a negative
truncated value renders as a minus sign followed by the magnitude. -/
def truncateDecimals (value : ℚ) (decimals : Nat) : String :=
  let multiplier : ℚ := 10 ^ decimals
  let truncated : ℤ := ⌊value * multiplier⌋
  if truncated < 0 then "-" ++ renderFixed (-truncated).toNat decimals
  else renderFixed truncated.toNat decimals

/-- The test of the regex `/^\d*\.?\d*$/` used by the amount handlers and by
`validateSwapAmount`: every character is a digit or a dot, and there is at
most one dot. -/
def matchesAmountPattern (s : String) : Bool :=
  s.toList.all (fun c => c.isDigit || c == '.') &&
    decide (s.toList.countP (fun c => c == '.') ≤ 1)

/-- Models `!amount || amount.trim() === ''`: the string is empty or consists
only of whitespace. -/
def isBlank (s : String) : Bool :=
  s.toList.all (fun c => c == ' ' || c == '\t' || c == '\n' || c == '\r')

/-- `parseNumber` from `src/utils/formatters.ts`: `parseFloat` with `NaN`
mapped to `0`.  `parseFloat` reads the longest numeric prefix and is `NaN`
(↦ 0) when no digit is read; this embedding covers the sign-less,
exponent-less fragment, which contains every string the component feeds it
(all amount strings are constrained by the regex above). -/
def parseNumber (s : String) : ℚ :=
  let cs := s.toList
  let ip := cs.takeWhile Char.isDigit
  let rest := cs.dropWhile Char.isDigit
  match rest with
  | '.' :: rest2 =>
    let fp := rest2.takeWhile Char.isDigit
    if ip.isEmpty && fp.isEmpty then 0
    else (digitsVal ip : ℚ) + (digitsVal fp : ℚ) / (10 : ℚ) ^ fp.length
  | _ => if ip.isEmpty then 0 else (digitsVal ip : ℚ)

/-- Number of digits after the decimal point of a rendered amount, when the
string has the shape `digits ++ "." ++ digits`; used to state "rendered with
exactly 6 decimal digits". -/
def fractionDigits (s : String) : Option Nat :=
  match s.toList.dropWhile Char.isDigit with
  | '.' :: rest => if rest.all Char.isDigit then some rest.length else none
  | _ => none

/-- The `field` discriminant of `ValidationError` in `token.types.ts`. -/
inductive VField
  | fromAmountField
  | toAmountField
  | generalField
deriving DecidableEq

/-- `ValidationError` from `src/types/token.types.ts`. -/
structure ValidationError where
  field : VField
  message : String
deriving DecidableEq

/-- `validateSwapAmount` from `src/utils/validators.ts`.  The source's
`isNaN(numValue)` guard collapses into the `numValue ≤ 0` branch because the
embedding maps `NaN` to `0` (same resulting message). -/
def validateSwapAmount (amount : String) (field : VField) : Option ValidationError :=
  if isBlank amount then some ⟨field, "Amount is required"⟩
  else if !matchesAmountPattern amount then some ⟨field, "Please enter a valid number"⟩
  else
    let numValue := parseNumber amount
    if numValue ≤ 0 then some ⟨field, "Amount must be greater than 0"⟩
    else if maxSafeInteger < numValue then some ⟨field, "Amount is too large"⟩
    else none

/-- `validateTokensDifferent` from `src/utils/validators.ts`. -/
def validateTokensDifferent (fromToken toToken : String) : Option ValidationError :=
  if fromToken == toToken then some ⟨VField.generalField, "Cannot swap the same token"⟩
  else none

/-- The forward conversion the component performs in `handleFromAmountChange`
and in the rate-change effect:
`converted = parseNumber(value) * exchangeRate`, then
`converted > 0 ? truncateDecimals(converted, 6) : ''`. -/
def convertForward (value : String) (rate : ℚ) : String :=
  let numValue := parseNumber value
  let converted := numValue * rate
  if 0 < converted then truncateDecimals converted 6 else ""

/-- The backward conversion in `handleToAmountChange` and the rate-change
effect: `converted = exchangeRate > 0 ? parseNumber(value) / exchangeRate : 0`,
then `converted > 0 ? truncateDecimals(converted, 6) : ''`.  (The effect's
`to` branch divides unguarded, but only runs under `exchangeRate > 0`, where
the two coincide.) -/
def convertBackward (value : String) (rate : ℚ) : String :=
  let numValue := parseNumber value
  let converted := if 0 < rate then numValue / rate else 0
  if 0 < converted then truncateDecimals converted 6 else ""

/-- `SwapFormData` from `src/types/token.types.ts`. -/
structure SwapFormData where
  fromToken : String
  toToken : String
  fromAmount : String
  toAmount : String
deriving DecidableEq

/-- The `'from' | 'to'` discriminant of `lastUpdatedField`. -/
inductive AmountField
  | fromField
  | toField
deriving DecidableEq

/-- The flip `lastUpdatedField === 'from' ? 'to' : 'from'`. -/
def AmountField.other : AmountField → AmountField
  | .fromField => .toField
  | .toField => .fromField

/-- The `status` union of `SwapTransaction`. -/
inductive TxStatus
  | pending
  | completed
  | failed
deriving DecidableEq

/-- `SwapTransaction` from `src/types/token.types.ts` (the `Date` fields
`timestamp` is modelled as a natural clock value, `id` as the string the
source interpolates). -/
structure SwapTransaction where
  id : String
  fromToken : String
  toToken : String
  fromAmount : ℚ
  toAmount : ℚ
  exchangeRate : ℚ
  timestamp : Nat
  status : TxStatus
deriving DecidableEq

/-- One entry of the price feed's JSON array (`TokenApiResponse` in
`useTokenPrices.ts`); `price` is `none` for a `null`/missing price. -/
structure ApiToken where
  currency : String
  price : Option ℚ
  date : String
deriving DecidableEq

/-- `TokenPrice` from `token.types.ts`: a JS object indexed by currency,
modelled as a partial map. -/
def TokenPrice : Type := String → Option ℚ

/-- The empty price table `{}`. -/
def emptyPrices : TokenPrice := fun _ => none

/-- The flattened state of the component and its hooks: `formData`, `error`,
`lastUpdatedField`, `showSuccess` from `CurrencySwapForm`; `prices` and
`error` (here `pricesError`) from `useTokenPrices`; `isSwapping`,
`lastTransaction`, `error` (here `swapError`) from `useSwap`.  `pendingSwap`
holds the arguments of an in-flight `executeSwap(formData, exchangeRate)`
call between its invocation and its resolution; `executorCalls` is a history
variable counting invocations of `executeSwap`, used to state that the
executor is not invoked. -/
structure SysState where
  formData : SwapFormData
  error : String
  lastUpdatedField : AmountField
  showSuccess : Bool
  prices : TokenPrice
  pricesError : Option String
  isSwapping : Bool
  lastTransaction : Option SwapTransaction
  swapError : Option String
  pendingSwap : Option (SwapFormData × ℚ)
  executorCalls : Nat

/-- The initial hook state of a session. -/
def initialState : SysState where
  formData := ⟨"ETH", "USDC", "", ""⟩
  error := ""
  lastUpdatedField := .fromField
  showSuccess := false
  prices := emptyPrices
  pricesError := none
  isSwapping := false
  lastTransaction := none
  swapError := none
  pendingSwap := none
  executorCalls := 0

/-- The `exchangeRate` memo: `prices[fromToken] / prices[toToken]` when both
are truthy (present and nonzero — JS `if (fromPrice && toPrice)`), else `0`. -/
def exchangeRate (s : SysState) : ℚ :=
  match s.prices s.formData.fromToken, s.prices s.formData.toToken with
  | some fromPrice, some toPrice =>
    if fromPrice ≠ 0 ∧ toPrice ≠ 0 then fromPrice / toPrice else 0
  | _, _ => 0

/-- Field-indexed access to the two amount strings. -/
def amountOf (s : SysState) : AmountField → String
  | .fromField => s.formData.fromAmount
  | .toField => s.formData.toAmount

/-- `handleFromAmountChange`: reject (with a syntax error) any nonempty value
failing the regex; otherwise clear the error, mark `from` as last updated, set
`fromAmount` to the raw value and `toAmount` to the converted counterpart. -/
def handleFromAmountChange (s : SysState) (value : String) : SysState :=
  if value != "" && !matchesAmountPattern value then
    { s with error := "Please enter a valid number" }
  else
    { s with
      error := ""
      lastUpdatedField := .fromField
      formData :=
        { s.formData with
          fromAmount := value
          toAmount := convertForward value (exchangeRate s) } }

/-- `handleToAmountChange`, symmetric to `handleFromAmountChange`. -/
def handleToAmountChange (s : SysState) (value : String) : SysState :=
  if value != "" && !matchesAmountPattern value then
    { s with error := "Please enter a valid number" }
  else
    { s with
      error := ""
      lastUpdatedField := .toField
      formData :=
        { s.formData with
          toAmount := value
          fromAmount := convertBackward value (exchangeRate s) } }

/-- Dispatch an edit to the handler of the given field. -/
def editAmount (s : SysState) (f : AmountField) (value : String) : SysState :=
  match f with
  | .fromField => handleFromAmountChange s value
  | .toField => handleToAmountChange s value

/-- `handleFromTokenChange`: updates the token symbol only. -/
def handleFromTokenChange (s : SysState) (currency : String) : SysState :=
  { s with formData := { s.formData with fromToken := currency } }

/-- `handleToTokenChange`: updates the token symbol only. -/
def handleToTokenChange (s : SysState) (currency : String) : SysState :=
  { s with formData := { s.formData with toToken := currency } }

/-- `handleSwapTokens`: one atomic `setFormData` exchanging the tokens and
the amounts, then the `lastUpdatedField` flip. -/
def handleSwapTokens (s : SysState) : SysState :=
  { s with
    formData :=
      ⟨s.formData.toToken, s.formData.fromToken, s.formData.toAmount, s.formData.fromAmount⟩
    lastUpdatedField := s.lastUpdatedField.other }

/-- The `useEffect` with dependency `[exchangeRate]` (lines 124-142 of the
component): when the rate is positive, recompute the field opposite to
`lastUpdatedField` from the current value of the last-updated field; the
functional `setFormData(prev => …)` writes only that one counterpart field. -/
def rateEffect (s : SysState) : SysState :=
  if 0 < exchangeRate s then
    match s.lastUpdatedField with
    | .fromField =>
      if s.formData.fromAmount != "" then
        { s with
          formData :=
            { s.formData with
              toAmount := convertForward s.formData.fromAmount (exchangeRate s) } }
      else s
    | .toField =>
      if s.formData.toAmount != "" then
        { s with
          formData :=
            { s.formData with
              fromAmount := convertBackward s.formData.toAmount (exchangeRate s) } }
      else s
  else s

/-- `handleMaxAmount`: feeds the mock balance `"10"` through
`handleFromAmountChange`. -/
def handleMaxAmount (s : SysState) : SysState :=
  handleFromAmountChange s "10"

/-- The body of `handleSubmit` up to (and including) the invocation of
`executeSwap`: the two validations, each returning early with its message;
on success `setError('')`, then `executeSwap(formData, exchangeRate)` starts
(`isSwapping := true`, `setError(null)` in the hook) and its arguments are
recorded in `pendingSwap` until resolution. -/
def submitStart (s : SysState) : SysState :=
  match validateSwapAmount s.formData.fromAmount .fromAmountField with
  | some v => { s with error := v.message }
  | none =>
    match validateTokensDifferent s.formData.fromToken s.formData.toToken with
    | some v => { s with error := v.message }
    | none =>
      { s with
        error := ""
        swapError := none
        isSwapping := true
        pendingSwap := some (s.formData, exchangeRate s)
        executorCalls := s.executorCalls + 1 }

/-- The `disabled` predicate of the submit button:
`isSwapping || !formData.fromAmount || parseNumber(formData.fromAmount) <= 0 || !exchangeRate`. -/
def submitDisabled (s : SysState) : Bool :=
  s.isSwapping || s.formData.fromAmount == "" ||
    decide (parseNumber s.formData.fromAmount ≤ 0) || exchangeRate s == 0

/-- A click on the submit button: a disabled button does not fire its
`onClick`, so `handleSubmit` runs only when `submitDisabled` is false.  This
is the only call site of `handleSubmit` in the component. -/
def submitClick (s : SysState) : SysState :=
  if submitDisabled s then s else submitStart s

/-- Resolution of the simulated settlement in `executeSwap`: the
`Math.random() < 0.1` failure branch, or success carrying the `Date.now()`
value and the random id suffix. -/
inductive SwapOutcome
  | failure
  | success (now : Nat) (suffix : String)

/-- The transaction object `executeSwap` constructs on success (literal
`status: 'completed'`). -/
def mkTransaction (fd : SwapFormData) (rate : ℚ) (now : Nat) (suffix : String) :
    SwapTransaction where
  id := "swap_" ++ toString now ++ "_" ++ suffix
  fromToken := fd.fromToken
  toToken := fd.toToken
  fromAmount := parseNumber fd.fromAmount
  toAmount := parseNumber fd.toAmount
  exchangeRate := rate
  timestamp := now
  status := .completed

/-- Resolution of an in-flight swap.  Failure: `executeSwap` sets its error
and rethrows, `handleSubmit`'s catch block does nothing, the `finally` clears
`isSwapping`.  Success: `executeSwap` stores the transaction; `handleSubmit`
then shows the success banner and resets the amounts of the `formData` it
closed over at submit time (the recorded `pendingSwap` snapshot), keeping the
token selection. -/
def submitResolve (s : SysState) (outcome : SwapOutcome) : SysState :=
  match s.pendingSwap with
  | none => s
  | some (fd, rate) =>
    match outcome with
    | .failure =>
      { s with
        swapError := some "Transaction failed. Please try again."
        isSwapping := false
        pendingSwap := none }
    | .success now suffix =>
      { s with
        lastTransaction := some (mkTransaction fd rate now suffix)
        isSwapping := false
        pendingSwap := none
        showSuccess := true
        formData := { fd with fromAmount := "", toAmount := "" } }

/-- The price table a successful fetch builds in `useTokenPrices`:
`data.filter(t => t.price != null)` reduced into an object by
`acc[t.currency] = t.price` (a later entry for the same currency wins). -/
def pricesMapOf (data : List ApiToken) : TokenPrice :=
  (data.filter (fun t => t.price.isSome)).foldl
    (fun acc t => fun c => if c = t.currency then t.price else acc c) emptyPrices

/-- A successful `fetchPrices` poll: wholesale replacement of the price table
and `setError(null)`. -/
def refreshOk (s : SysState) (data : List ApiToken) : SysState :=
  { s with prices := pricesMapOf data, pricesError := none }

/-- A failed `fetchPrices` poll: the catch block sets the error message and
clears the table to `{}` (and the token list to `[]`). -/
def refreshFail (s : SysState) : SysState :=
  { s with
    prices := emptyPrices
    pricesError := some "Failed to load token prices. Please try again later." }

/-- The reachable states of a session: the initial hook state closed under
every event the component can deliver.  The UI additionally disables the
inputs, selectors and buttons while `isSwapping` (except the MAX button);
that restriction is dropped here, so this relation over-approximates the set
of reachable states, which only strengthens the invariants proved below. -/
inductive Reachable : SysState → Prop
  | init : Reachable initialState
  | editFrom (s v) : Reachable s → Reachable (handleFromAmountChange s v)
  | editTo (s v) : Reachable s → Reachable (handleToAmountChange s v)
  | tokenFrom (s c) : Reachable s → Reachable (handleFromTokenChange s c)
  | tokenTo (s c) : Reachable s → Reachable (handleToTokenChange s c)
  | swapTokens (s) : Reachable s → Reachable (handleSwapTokens s)
  | rateRecalc (s) : Reachable s → Reachable (rateEffect s)
  | maxClick (s) : Reachable s → Reachable (handleMaxAmount s)
  | submit (s) : Reachable s → Reachable (submitClick s)
  | resolve (s o) : Reachable s → Reachable (submitResolve s o)
  | pricesOk (s data) : Reachable s → Reachable (refreshOk s data)
  | pricesFail (s) : Reachable s → Reachable (refreshFail s)

end SwapCore

namespace SwapCore

theorem digitVal_digitChar {n : Nat} (h : n < 10) : digitVal (digitChar n) = n := by
  interval_cases n <;> rfl

theorem digitChar_isDigit (n : Nat) : (digitChar n).isDigit = true := by
  unfold digitChar
  split <;> rfl

theorem isDigit_ne_dot {c : Char} (h : c.isDigit = true) : ¬ c = '.' := by
  intro e
  subst e
  exact absurd h (by decide)

theorem natDigitsAux_all_digit :
    ∀ fuel n, ∀ c ∈ natDigitsAux fuel n, c.isDigit = true := by
  intro fuel
  induction fuel with
  | zero => intro n c hc; simp [natDigitsAux] at hc
  | succ fuel ih =>
    intro n c hc
    simp only [natDigitsAux] at hc
    split at hc
    · rw [List.mem_singleton] at hc
      subst hc
      exact digitChar_isDigit n
    · rcases List.mem_append.mp hc with h | h
      · exact ih _ _ h
      · rw [List.mem_singleton] at h
        subst h
        exact digitChar_isDigit _

theorem digitsVal_append_singleton (l : List Char) (c : Char) :
    digitsVal (l ++ [c]) = 10 * digitsVal l + digitVal c := by
  unfold digitsVal
  rw [List.foldl_append]
  rfl

theorem digitsVal_natDigitsAux : ∀ fuel n, n < fuel → digitsVal (natDigitsAux fuel n) = n := by
  intro fuel
  induction fuel with
  | zero => intro n h; omega
  | succ fuel ih =>
    intro n h
    simp only [natDigitsAux]
    split
    · next h10 =>
      show digitsVal [digitChar n] = n
      unfold digitsVal
      simp only [List.foldl_cons, List.foldl_nil]
      have := digitVal_digitChar h10
      omega
    · next h10 =>
      have hdiv : n / 10 < fuel := by
        have := Nat.div_lt_self (show 0 < n by omega) (show 1 < 10 by norm_num)
        omega
      rw [digitsVal_append_singleton, ih (n / 10) hdiv,
        digitVal_digitChar (Nat.mod_lt _ (by norm_num))]
      omega

theorem digitsVal_natDigits (n : Nat) : digitsVal (natDigits n) = n :=
  digitsVal_natDigitsAux _ _ (Nat.lt_succ_self n)

theorem natDigits_all_digit (n : Nat) : ∀ c ∈ natDigits n, c.isDigit = true :=
  natDigitsAux_all_digit _ _

theorem natDigitsAux_ne_nil : ∀ fuel n, n < fuel → natDigitsAux fuel n ≠ [] := by
  intro fuel
  induction fuel with
  | zero => intro n h; omega
  | succ fuel _ =>
    intro n _
    simp only [natDigitsAux]
    split
    · simp
    · simp

theorem natDigits_ne_nil (n : Nat) : natDigits n ≠ [] :=
  natDigitsAux_ne_nil _ _ (Nat.lt_succ_self n)

theorem natDigitsAux_length_le :
    ∀ fuel k n, n < fuel → n < 10 ^ (k + 1) → (natDigitsAux fuel n).length ≤ k + 1 := by
  intro fuel
  induction fuel with
  | zero => intro k n h; omega
  | succ fuel ih =>
    intro k n h hk
    simp only [natDigitsAux]
    split
    · simp
    · next h10 =>
      have hdiv : n / 10 < fuel := by
        have := Nat.div_lt_self (show 0 < n by omega) (show 1 < 10 by norm_num)
        omega
      cases k with
      | zero => simp at hk; omega
      | succ k =>
        have hdivpow : n / 10 < 10 ^ (k + 1) := by
          rw [Nat.div_lt_iff_lt_mul (by norm_num)]
          calc n < 10 ^ (k + 1 + 1) := hk
            _ = 10 ^ (k + 1) * 10 := by ring
        have := ih k (n / 10) hdiv hdivpow
        simp only [List.length_append, List.length_singleton]
        omega

theorem natDigits_length_le {k n : Nat} (h : n < 10 ^ (k + 1)) :
    (natDigits n).length ≤ k + 1 :=
  natDigitsAux_length_le _ _ _ (Nat.lt_succ_self n) h

theorem foldl_digit_zero :
    ∀ k, List.foldl (fun a c => 10 * a + digitVal c) 0 (List.replicate k '0') = 0 := by
  intro k
  induction k with
  | zero => rfl
  | succ k ih =>
    rw [List.replicate_succ, List.foldl_cons]
    simpa using ih

theorem digitsVal_padZeros (k : Nat) (l : List Char) :
    digitsVal (padZeros k l) = digitsVal l := by
  unfold padZeros digitsVal
  rw [List.foldl_append, foldl_digit_zero]

theorem padZeros_length {k : Nat} {l : List Char} (h : l.length ≤ k) :
    (padZeros k l).length = k := by
  unfold padZeros
  simp only [List.length_append, List.length_replicate]
  omega

theorem padZeros_all_digit {k : Nat} {l : List Char}
    (h : ∀ c ∈ l, c.isDigit = true) : ∀ c ∈ padZeros k l, c.isDigit = true := by
  intro c hc
  unfold padZeros at hc
  rcases List.mem_append.mp hc with h0 | h1
  · rw [List.eq_of_mem_replicate h0]
    rfl
  · exact h c h1

theorem takeWhile_append_cons {p : Char → Bool} :
    ∀ (A : List Char) (x : Char) (B : List Char), (∀ c ∈ A, p c = true) → p x = false →
      (A ++ x :: B).takeWhile p = A := by
  intro A
  induction A with
  | nil =>
    intro x B _ hx
    simp [List.takeWhile_cons, hx]
  | cons a A ih =>
    intro x B hA hx
    simp only [List.cons_append, List.takeWhile_cons, hA a (List.mem_cons_self a A), if_true]
    rw [ih x B (fun c hc => hA c (List.mem_cons_of_mem a hc)) hx]

theorem dropWhile_append_cons {p : Char → Bool} :
    ∀ (A : List Char) (x : Char) (B : List Char), (∀ c ∈ A, p c = true) → p x = false →
      (A ++ x :: B).dropWhile p = x :: B := by
  intro A
  induction A with
  | nil =>
    intro x B _ hx
    simp [List.dropWhile_cons, hx]
  | cons a A ih =>
    intro x B hA hx
    simp only [List.cons_append, List.dropWhile_cons, hA a (List.mem_cons_self a A), if_true]
    exact ih x B (fun c hc => hA c (List.mem_cons_of_mem a hc)) hx

theorem takeWhile_all {p : Char → Bool} :
    ∀ (l : List Char), (∀ c ∈ l, p c = true) → l.takeWhile p = l := by
  intro l
  induction l with
  | nil => intro; rfl
  | cons a l ih =>
    intro h
    simp only [List.takeWhile_cons, h a (List.mem_cons_self a l), if_true]
    rw [ih (fun c hc => h c (List.mem_cons_of_mem a hc))]

end SwapCore

namespace SwapCore

theorem parseNumber_digits_dot_digits (A B : List Char)
    (hA : ∀ c ∈ A, c.isDigit = true) (hB : ∀ c ∈ B, c.isDigit = true) (hAne : A ≠ []) :
    parseNumber (String.mk (A ++ '.' :: B)) =
      (digitsVal A : ℚ) + (digitsVal B : ℚ) / 10 ^ B.length := by
  have hdot : Char.isDigit '.' = false := by decide
  have hAe : A.isEmpty = false := by
    cases A with
    | nil => exact absurd rfl hAne
    | cons a l => rfl
  unfold parseNumber
  simp only [String.toList]
  show (match (A ++ '.' :: B).dropWhile Char.isDigit with
    | '.' :: rest2 =>
      if ((A ++ '.' :: B).takeWhile Char.isDigit).isEmpty && (rest2.takeWhile Char.isDigit).isEmpty
        then (0 : ℚ)
        else (digitsVal ((A ++ '.' :: B).takeWhile Char.isDigit) : ℚ) +
          (digitsVal (rest2.takeWhile Char.isDigit) : ℚ) /
            (10 : ℚ) ^ (rest2.takeWhile Char.isDigit).length
    | _ =>
      if ((A ++ '.' :: B).takeWhile Char.isDigit).isEmpty then (0 : ℚ)
      else (digitsVal ((A ++ '.' :: B).takeWhile Char.isDigit) : ℚ)) = _
  rw [dropWhile_append_cons A '.' B hA hdot, takeWhile_append_cons A '.' B hA hdot]
  show (if A.isEmpty && (B.takeWhile Char.isDigit).isEmpty then (0 : ℚ)
    else (digitsVal A : ℚ) +
      (digitsVal (B.takeWhile Char.isDigit) : ℚ) /
        (10 : ℚ) ^ (B.takeWhile Char.isDigit).length) = _
  rw [takeWhile_all B hB, hAe]
  simp

theorem matchesAmountPattern_digits_dot_digits (A B : List Char)
    (hA : ∀ c ∈ A, c.isDigit = true) (hB : ∀ c ∈ B, c.isDigit = true) :
    matchesAmountPattern (String.mk (A ++ '.' :: B)) = true := by
  unfold matchesAmountPattern
  simp only [String.toList, Bool.and_eq_true, decide_eq_true_eq]
  constructor
  · rw [List.all_eq_true]
    intro c hc
    rcases List.mem_append.mp hc with h | h
    · simp [hA c h]
    · rcases List.mem_cons.mp h with h | h
      · subst h
        rfl
      · simp [hB c h]
  · have hcA : A.countP (fun c => c == '.') = 0 := by
      rw [List.countP_eq_zero]
      intro c hc
      simp only [beq_iff_eq]
      exact isDigit_ne_dot (hA c hc)
    have hcB : B.countP (fun c => c == '.') = 0 := by
      rw [List.countP_eq_zero]
      intro c hc
      simp only [beq_iff_eq]
      exact isDigit_ne_dot (hB c hc)
    rw [List.countP_append, List.countP_cons, hcA, hcB]
    simp

theorem fractionDigits_digits_dot_digits (A B : List Char)
    (hA : ∀ c ∈ A, c.isDigit = true) (hB : ∀ c ∈ B, c.isDigit = true) :
    fractionDigits (String.mk (A ++ '.' :: B)) = some B.length := by
  have hdot : Char.isDigit '.' = false := by decide
  unfold fractionDigits
  simp only [String.toList]
  show (match (A ++ '.' :: B).dropWhile Char.isDigit with
    | '.' :: rest => if rest.all Char.isDigit then some rest.length else none
    | _ => none) = _
  rw [dropWhile_append_cons A '.' B hA hdot]
  show (if B.all Char.isDigit then some B.length else none) = _
  rw [if_pos (List.all_eq_true.mpr hB)]

theorem parseNumber_renderFixed6 (k : Nat) :
    parseNumber (renderFixed k 6) = (k : ℚ) / 10 ^ 6 := by
  unfold renderFixed
  rw [if_neg (by norm_num)]
  rw [parseNumber_digits_dot_digits _ _ (natDigits_all_digit _)
    (padZeros_all_digit (natDigits_all_digit _)) (natDigits_ne_nil _)]
  rw [digitsVal_padZeros, digitsVal_natDigits, digitsVal_natDigits]
  rw [padZeros_length (natDigits_length_le (show k % 10 ^ 6 < 10 ^ (5 + 1) from
    Nat.mod_lt _ (by norm_num)))]
  have hk : 10 ^ 6 * (k / 10 ^ 6) + k % 10 ^ 6 = k := Nat.div_add_mod k (10 ^ 6)
  have hc := congrArg (fun n : ℕ => (n : ℚ)) hk
  push_cast at hc
  field_simp
  linarith

theorem matchesAmountPattern_renderFixed6 (k : Nat) :
    matchesAmountPattern (renderFixed k 6) = true := by
  unfold renderFixed
  rw [if_neg (by norm_num)]
  exact matchesAmountPattern_digits_dot_digits _ _ (natDigits_all_digit _)
    (padZeros_all_digit (natDigits_all_digit _))

theorem fractionDigits_renderFixed6 (k : Nat) :
    fractionDigits (renderFixed k 6) = some 6 := by
  unfold renderFixed
  rw [if_neg (by norm_num)]
  rw [fractionDigits_digits_dot_digits _ _ (natDigits_all_digit _)
    (padZeros_all_digit (natDigits_all_digit _))]
  rw [padZeros_length (natDigits_length_le (show k % 10 ^ 6 < 10 ^ (5 + 1) from
    Nat.mod_lt _ (by norm_num)))]

theorem truncateDecimals_nonneg_eq {v : ℚ} (h : 0 ≤ v) :
    truncateDecimals v 6 = renderFixed (⌊v * 10 ^ 6⌋).toNat 6 := by
  unfold truncateDecimals
  rw [if_neg]
  rw [not_lt]
  exact Int.floor_nonneg.mpr (by positivity)

theorem parseNumber_truncateDecimals {v : ℚ} (h : 0 ≤ v) :
    parseNumber (truncateDecimals v 6) = (⌊v * 10 ^ 6⌋ : ℚ) / 10 ^ 6 := by
  rw [truncateDecimals_nonneg_eq h, parseNumber_renderFixed6]
  congr 1
  have h0 : (0 : ℤ) ≤ ⌊v * 10 ^ 6⌋ := Int.floor_nonneg.mpr (by positivity)
  exact_mod_cast congrArg (fun z : ℤ => (z : ℚ)) (Int.toNat_of_nonneg h0)

theorem truncQ_le (v : ℚ) : (⌊v * 10 ^ 6⌋ : ℚ) / 10 ^ 6 ≤ v := by
  rw [div_le_iff₀ (by norm_num : (0 : ℚ) < 10 ^ 6)]
  exact Int.floor_le _

theorem parseNumber_nonneg (s : String) : 0 ≤ parseNumber s := by
  unfold parseNumber
  dsimp only
  split <;> split_ifs <;> positivity

theorem matchesAmountPattern_truncateDecimals {v : ℚ} (h : 0 ≤ v) :
    matchesAmountPattern (truncateDecimals v 6) = true := by
  rw [truncateDecimals_nonneg_eq h]
  exact matchesAmountPattern_renderFixed6 _

theorem matchesAmountPattern_convertForward (v : String) (r : ℚ) :
    matchesAmountPattern (convertForward v r) = true := by
  unfold convertForward
  dsimp only
  split_ifs with h
  · exact matchesAmountPattern_truncateDecimals (le_of_lt h)
  · rfl

theorem matchesAmountPattern_convertBackward (v : String) (r : ℚ) :
    matchesAmountPattern (convertBackward v r) = true := by
  unfold convertBackward
  dsimp only
  split_ifs with h1 h2
  all_goals first
    | rfl
    | exact matchesAmountPattern_truncateDecimals (by linarith)

end SwapCore

namespace SwapCore

theorem validateSwapAmount_none_iff (a : String) (f : VField) :
    validateSwapAmount a f = none ↔
      isBlank a = false ∧ matchesAmountPattern a = true ∧
        0 < parseNumber a ∧ parseNumber a ≤ maxSafeInteger := by
  unfold validateSwapAmount
  dsimp only
  split_ifs with h1 h2 h3 h4 <;>
    simp_all [Bool.not_eq_true', not_le, not_lt, le_of_lt]

theorem validateTokensDifferent_none_iff (a b : String) :
    validateTokensDifferent a b = none ↔ a ≠ b := by
  unfold validateTokensDifferent
  split_ifs with h <;> simp_all

theorem convertForward_nonpos {v : String} {r : ℚ} (h : parseNumber v * r ≤ 0) :
    convertForward v r = "" := by
  unfold convertForward
  dsimp only
  rw [if_neg (not_lt.mpr h)]

theorem convertBackward_rate_nonpos {v : String} {r : ℚ} (h : ¬ 0 < r) :
    convertBackward v r = "" := by
  unfold convertBackward
  dsimp only
  rw [if_neg h, if_neg (lt_irrefl 0)]

theorem rateEffect_eq_self {s : SysState}
    (h : ¬ 0 < exchangeRate s ∨ amountOf s s.lastUpdatedField = "") :
    rateEffect s = s := by
  unfold rateEffect
  rcases h with h | h
  · rw [if_neg h]
  · by_cases hr : 0 < exchangeRate s
    · rw [if_pos hr]
      cases hl : s.lastUpdatedField with
      | fromField =>
        have ha : s.formData.fromAmount = "" := by rw [hl] at h; exact h
        show (if s.formData.fromAmount != "" then _ else s) = s
        rw [if_neg (by simp [ha])]
      | toField =>
        have ha : s.formData.toAmount = "" := by rw [hl] at h; exact h
        show (if s.formData.toAmount != "" then _ else s) = s
        rw [if_neg (by simp [ha])]
    · rw [if_neg hr]

theorem rateEffect_eq_of_from {s : SysState} (hr : 0 < exchangeRate s)
    (hl : s.lastUpdatedField = .fromField) (ha : s.formData.fromAmount ≠ "") :
    rateEffect s =
      { s with formData :=
        { s.formData with toAmount := convertForward s.formData.fromAmount (exchangeRate s) } } := by
  unfold rateEffect
  rw [if_pos hr, hl]
  show (if s.formData.fromAmount != "" then _ else s) = _
  rw [if_pos (bne_iff_ne.mpr ha)]

theorem rateEffect_eq_of_to {s : SysState} (hr : 0 < exchangeRate s)
    (hl : s.lastUpdatedField = .toField) (ha : s.formData.toAmount ≠ "") :
    rateEffect s =
      { s with formData :=
        { s.formData with fromAmount := convertBackward s.formData.toAmount (exchangeRate s) } } := by
  unfold rateEffect
  rw [if_pos hr, hl]
  show (if s.formData.toAmount != "" then _ else s) = _
  rw [if_pos (bne_iff_ne.mpr ha)]

theorem rateEffect_cases (s : SysState) :
    rateEffect s = s ∨
      (∃ v, rateEffect s = { s with formData := { s.formData with toAmount := v } } ∧
        matchesAmountPattern v = true) ∨
      (∃ v, rateEffect s = { s with formData := { s.formData with fromAmount := v } } ∧
        matchesAmountPattern v = true) := by
  by_cases hr : 0 < exchangeRate s
  · cases hl : s.lastUpdatedField with
    | fromField =>
      by_cases ha : s.formData.fromAmount = ""
      · exact Or.inl (rateEffect_eq_self (Or.inr (by rw [hl]; exact ha)))
      · refine Or.inr (Or.inl ⟨convertForward s.formData.fromAmount (exchangeRate s), ?_,
          matchesAmountPattern_convertForward _ _⟩)
        rw [rateEffect_eq_of_from hr hl ha, hl]
    | toField =>
      by_cases ha : s.formData.toAmount = ""
      · exact Or.inl (rateEffect_eq_self (Or.inr (by rw [hl]; exact ha)))
      · refine Or.inr (Or.inr ⟨convertBackward s.formData.toAmount (exchangeRate s), ?_,
          matchesAmountPattern_convertBackward _ _⟩)
        rw [rateEffect_eq_of_to hr hl ha, hl]
  · exact Or.inl (rateEffect_eq_self (Or.inl hr))

theorem rateEffect_amount_last (s : SysState) :
    amountOf (rateEffect s) s.lastUpdatedField = amountOf s s.lastUpdatedField := by
  by_cases hr : 0 < exchangeRate s
  · cases hl : s.lastUpdatedField with
    | fromField =>
      by_cases ha : s.formData.fromAmount = ""
      · rw [rateEffect_eq_self (Or.inr (by rw [hl]; exact ha))]
      · rw [rateEffect_eq_of_from hr hl ha]
        rfl
    | toField =>
      by_cases ha : s.formData.toAmount = ""
      · rw [rateEffect_eq_self (Or.inr (by rw [hl]; exact ha))]
      · rw [rateEffect_eq_of_to hr hl ha]
        rfl
  · rw [rateEffect_eq_self (Or.inl hr)]

theorem submitClick_formData (s : SysState) : (submitClick s).formData = s.formData := by
  unfold submitClick submitStart
  split
  · rfl
  · split
    · rfl
    · split
      · rfl
      · rfl

theorem handleFromAmountChange_lastTransaction (s : SysState) (v : String) :
    (handleFromAmountChange s v).lastTransaction = s.lastTransaction := by
  unfold handleFromAmountChange
  split <;> rfl

theorem handleToAmountChange_lastTransaction (s : SysState) (v : String) :
    (handleToAmountChange s v).lastTransaction = s.lastTransaction := by
  unfold handleToAmountChange
  split <;> rfl

theorem submitClick_lastTransaction (s : SysState) :
    (submitClick s).lastTransaction = s.lastTransaction := by
  unfold submitClick submitStart
  split
  · rfl
  · split
    · rfl
    · split
      · rfl
      · rfl

theorem rateEffect_lastTransaction (s : SysState) :
    (rateEffect s).lastTransaction = s.lastTransaction := by
  rcases rateEffect_cases s with h | ⟨v, h, _⟩ | ⟨v, h, _⟩ <;> rw [h]

end SwapCore

namespace SwapCore

theorem matchesAmountPattern_empty : matchesAmountPattern "" = true := rfl

theorem handleFromAmountChange_wf {s : SysState} (v : String)
    (ih : matchesAmountPattern s.formData.fromAmount = true ∧
      matchesAmountPattern s.formData.toAmount = true) :
    matchesAmountPattern (handleFromAmountChange s v).formData.fromAmount = true ∧
      matchesAmountPattern (handleFromAmountChange s v).formData.toAmount = true := by
  unfold handleFromAmountChange
  by_cases hg : (v != "" && !matchesAmountPattern v) = true
  · rw [if_pos hg]
    exact ih
  · rw [if_neg hg]
    refine ⟨?_, matchesAmountPattern_convertForward v _⟩
    by_cases hv : matchesAmountPattern v = true
    · exact hv
    · have hvf : matchesAmountPattern v = false := by
        cases hb : matchesAmountPattern v
        · rfl
        · exact absurd hb hv
      have hve : v = "" := by
        by_contra hne
        exact hg (by simp [hvf, bne_iff_ne.mpr hne])
      rw [hve]
      exact matchesAmountPattern_empty

theorem handleToAmountChange_wf {s : SysState} (v : String)
    (ih : matchesAmountPattern s.formData.fromAmount = true ∧
      matchesAmountPattern s.formData.toAmount = true) :
    matchesAmountPattern (handleToAmountChange s v).formData.fromAmount = true ∧
      matchesAmountPattern (handleToAmountChange s v).formData.toAmount = true := by
  unfold handleToAmountChange
  by_cases hg : (v != "" && !matchesAmountPattern v) = true
  · rw [if_pos hg]
    exact ih
  · rw [if_neg hg]
    refine ⟨matchesAmountPattern_convertBackward v _, ?_⟩
    by_cases hv : matchesAmountPattern v = true
    · exact hv
    · have hvf : matchesAmountPattern v = false := by
        cases hb : matchesAmountPattern v
        · rfl
        · exact absurd hb hv
      have hve : v = "" := by
        by_contra hne
        exact hg (by simp [hvf, bne_iff_ne.mpr hne])
      rw [hve]
      exact matchesAmountPattern_empty

end SwapCore

namespace SwapCore

/-- C3: for every form state, applying `handleSwapTokens` (swapDirection)
twice restores the exact pre-swap state — in particular the 4-tuple
`(fromToken, toToken, fromAmount, toAmount)` — and a single application
exchanges `fromToken` with `toToken` and `fromAmount` with `toAmount` in one
atomic `setFormData` while flipping `lastUpdatedField` (and touching nothing
else). -/
theorem swapDirection_involutive_and_exchanges (s : SysState) :
    handleSwapTokens (handleSwapTokens s) = s ∧
    (handleSwapTokens s).formData.fromToken = s.formData.toToken ∧
    (handleSwapTokens s).formData.toToken = s.formData.fromToken ∧
    (handleSwapTokens s).formData.fromAmount = s.formData.toAmount ∧
    (handleSwapTokens s).formData.toAmount = s.formData.fromAmount ∧
    (handleSwapTokens s).lastUpdatedField = s.lastUpdatedField.other ∧
    (handleSwapTokens s).error = s.error ∧
    (handleSwapTokens s).isSwapping = s.isSwapping ∧
    (handleSwapTokens s).lastTransaction = s.lastTransaction ∧
    (handleSwapTokens s).prices = s.prices := by
  refine ⟨?_, rfl, rfl, rfl, rfl, rfl, rfl, rfl, rfl, rfl⟩
  cases s with
  | mk fd err lf ss pr pe isw lt se ps ec =>
    cases fd
    cases lf <;> rfl

/-- C2: while a swap is in flight (`isSwapping = true`), a further submit is
rejected: the submit button is disabled, so the click is a no-op — the state
is unchanged and in particular `executeSwap` is not invoked again
(`executorCalls` stays), keeping at most one swap in flight.  (`submitClick`
with its `disabled` guard is the component's only call site of
`handleSubmit`.) -/
theorem submit_rejected_while_swapping (s : SysState) (h : s.isSwapping = true) :
    submitClick s = s ∧ (submitClick s).executorCalls = s.executorCalls ∧
      (submitClick s).isSwapping = true := by
  have he : submitClick s = s := by
    unfold submitClick submitDisabled
    rw [h]
    rfl
  exact ⟨he, by rw [he], by rw [he, h]⟩

/-- Witness for C2 at a concrete in-flight state. -/
theorem submit_rejected_while_swapping_witness :
    ({ initialState with isSwapping := true } : SysState).isSwapping = true ∧
      submitClick { initialState with isSwapping := true } =
        { initialState with isSwapping := true } :=
  ⟨rfl, (submit_rejected_while_swapping { initialState with isSwapping := true } rfl).1⟩

end SwapCore

namespace SwapCore

/-- C4: for every rate `r > 0` and every amount string, the conversion
truncates the raw value to 6 decimal places by flooring
(`floor(raw * 1e6) / 1e6`) and never rounds up: the number underlying the
returned string never exceeds the raw product (forward direction) or the raw
quotient (backward direction). -/
theorem convert_truncation_never_exceeds (amount : String) (r : ℚ) (hr : 0 < r) :
    (parseNumber (convertForward amount r) ≤ parseNumber amount * r ∧
      parseNumber (convertBackward amount r) ≤ parseNumber amount / r) ∧
    (0 < parseNumber amount * r →
      parseNumber (convertForward amount r) =
        (⌊parseNumber amount * r * 10 ^ 6⌋ : ℚ) / 10 ^ 6) ∧
    (0 < parseNumber amount / r →
      parseNumber (convertBackward amount r) =
        (⌊parseNumber amount / r * 10 ^ 6⌋ : ℚ) / 10 ^ 6) := by
  have hfwd : 0 < parseNumber amount * r →
      parseNumber (convertForward amount r) =
        (⌊parseNumber amount * r * 10 ^ 6⌋ : ℚ) / 10 ^ 6 := by
    intro h
    unfold convertForward
    dsimp only
    rw [if_pos h]
    exact parseNumber_truncateDecimals (le_of_lt h)
  have hbwd : 0 < parseNumber amount / r →
      parseNumber (convertBackward amount r) =
        (⌊parseNumber amount / r * 10 ^ 6⌋ : ℚ) / 10 ^ 6 := by
    intro h
    unfold convertBackward
    dsimp only
    rw [if_pos hr, if_pos h]
    exact parseNumber_truncateDecimals (le_of_lt h)
  refine ⟨⟨?_, ?_⟩, hfwd, hbwd⟩
  · by_cases h : 0 < parseNumber amount * r
    · rw [hfwd h]
      exact truncQ_le _
    · rw [convertForward_nonpos (not_lt.mp h)]
      have : (0 : ℚ) ≤ parseNumber amount * r :=
        mul_nonneg (parseNumber_nonneg _) (le_of_lt hr)
      calc parseNumber "" = 0 := rfl
        _ ≤ _ := this
  · by_cases h : 0 < parseNumber amount / r
    · rw [hbwd h]
      exact truncQ_le _
    · have hemp : convertBackward amount r = "" := by
        unfold convertBackward
        dsimp only
        rw [if_pos hr, if_neg h]
      rw [hemp]
      have : (0 : ℚ) ≤ parseNumber amount / r :=
        div_nonneg (parseNumber_nonneg _) (le_of_lt hr)
      calc parseNumber "" = 0 := rfl
        _ ≤ _ := this

/-- Witness for C4 at the spec's scenario values (rate 3500). -/
theorem convert_truncation_never_exceeds_witness :
    (0 : ℚ) < 3500 ∧
      parseNumber (convertForward "2" 3500) ≤ parseNumber "2" * 3500 ∧
      parseNumber (convertBackward "100" 3500) ≤ parseNumber "100" / 3500 :=
  ⟨by norm_num,
    ((convert_truncation_never_exceeds "2" 3500 (by norm_num)).1).1,
    ((convert_truncation_never_exceeds "100" 3500 (by norm_num)).1).2⟩

/-- C5: the conversion returns the empty string — not `"0"` — when the rate
is absent/zero (the `exchangeRate` memo yields `0` for an absent price) and
whenever the raw converted value is `≤ 0`; otherwise it returns the
floor-truncated value rendered with exactly 6 decimal digits. -/
theorem convert_empty_or_six_decimals (amount : String) (r : ℚ) :
    (convertForward amount 0 = "" ∧ convertBackward amount 0 = "") ∧
    (parseNumber amount * r ≤ 0 → convertForward amount r = "") ∧
    (r ≤ 0 → convertBackward amount r = "") ∧
    (0 < r → parseNumber amount / r ≤ 0 → convertBackward amount r = "") ∧
    (0 < parseNumber amount * r →
      fractionDigits (convertForward amount r) = some 6 ∧
      parseNumber (convertForward amount r) =
        (⌊parseNumber amount * r * 10 ^ 6⌋ : ℚ) / 10 ^ 6) ∧
    (0 < r → 0 < parseNumber amount / r →
      fractionDigits (convertBackward amount r) = some 6 ∧
      parseNumber (convertBackward amount r) =
        (⌊parseNumber amount / r * 10 ^ 6⌋ : ℚ) / 10 ^ 6) := by
  refine ⟨⟨?_, ?_⟩, ?_, ?_, ?_, ?_, ?_⟩
  · exact convertForward_nonpos (by rw [mul_zero])
  · exact convertBackward_rate_nonpos (lt_irrefl 0)
  · exact fun h => convertForward_nonpos h
  · exact fun h => convertBackward_rate_nonpos (not_lt.mpr h)
  · intro hr h
    unfold convertBackward
    dsimp only
    rw [if_pos hr, if_neg (not_lt.mpr h)]
  · intro h
    unfold convertForward
    dsimp only
    rw [if_pos h]
    refine ⟨?_, parseNumber_truncateDecimals (le_of_lt h)⟩
    rw [truncateDecimals_nonneg_eq (le_of_lt h)]
    exact fractionDigits_renderFixed6 _
  · intro hr h
    unfold convertBackward
    dsimp only
    rw [if_pos hr, if_pos h]
    refine ⟨?_, parseNumber_truncateDecimals (le_of_lt h)⟩
    rw [truncateDecimals_nonneg_eq (le_of_lt h)]
    exact fractionDigits_renderFixed6 _

/-- Witness for C5: zero rate gives the empty string; a positive conversion
renders with exactly 6 decimal digits. -/
theorem convert_empty_or_six_decimals_witness :
    convertForward "2" 0 = "" ∧
      fractionDigits (convertForward "2" 3500) = some 6 :=
  ⟨((convert_empty_or_six_decimals "2" 0).1).1,
    ((convert_empty_or_six_decimals "2" 3500).2.2.2.2.1 (by
      have h2 : parseNumber "2" = 2 := by decide
      rw [h2]
      norm_num)).1⟩

end SwapCore

namespace SwapCore

/-- C7: `handleSubmit` performs semantic validation before invoking
`executeSwap` — the executor runs only when the amount is nonempty, matches
the numeric pattern, parses to a value `> 0` and `≤ Number.MAX_SAFE_INTEGER`,
and `fromToken ≠ toToken`; any failing validation sets the returned
`ValidationError`'s message and leaves the executor uninvoked.  In particular
`fromAmount = "0"` yields "Amount must be greater than 0" (the amount check
runs first), and — when the amount validates — equal tokens yield
"Cannot swap the same token"; in both cases `executeSwap` is not invoked. -/
theorem submit_validates_before_executor (s : SysState) :
    ((submitStart s).executorCalls ≠ s.executorCalls →
      s.formData.fromAmount ≠ "" ∧
      matchesAmountPattern s.formData.fromAmount = true ∧
      0 < parseNumber s.formData.fromAmount ∧
      parseNumber s.formData.fromAmount ≤ maxSafeInteger ∧
      s.formData.fromToken ≠ s.formData.toToken) ∧
    (∀ e, validateSwapAmount s.formData.fromAmount .fromAmountField = some e →
      submitStart s = { s with error := e.message }) ∧
    (s.formData.fromAmount = "0" →
      (submitStart s).error = "Amount must be greater than 0" ∧
      (submitStart s).executorCalls = s.executorCalls ∧
      (submitStart s).isSwapping = s.isSwapping) ∧
    (validateSwapAmount s.formData.fromAmount .fromAmountField = none →
      s.formData.fromToken = s.formData.toToken →
      (submitStart s).error = "Cannot swap the same token" ∧
      (submitStart s).executorCalls = s.executorCalls ∧
      (submitStart s).isSwapping = s.isSwapping) := by
  refine ⟨?_, ?_, ?_, ?_⟩
  · intro hne
    cases hva : validateSwapAmount s.formData.fromAmount .fromAmountField with
    | some v =>
      exfalso
      apply hne
      simp [submitStart, hva]
    | none =>
      cases hvt : validateTokensDifferent s.formData.fromToken s.formData.toToken with
      | some v =>
        exfalso
        apply hne
        simp [submitStart, hva, hvt]
      | none =>
        obtain ⟨hb, hp, hpos, hle⟩ := (validateSwapAmount_none_iff _ _).mp hva
        refine ⟨?_, hp, hpos, hle, (validateTokensDifferent_none_iff _ _).mp hvt⟩
        intro he
        rw [he] at hb
        exact absurd hb (by decide)
  · intro e he
    simp [submitStart, he]
  · intro h0
    have heval : validateSwapAmount s.formData.fromAmount .fromAmountField =
        some ⟨VField.fromAmountField, "Amount must be greater than 0"⟩ := by
      rw [h0]
      decide
    simp [submitStart, heval]
  · intro hva hteq
    have hvt : validateTokensDifferent s.formData.fromToken s.formData.toToken =
        some ⟨VField.generalField, "Cannot swap the same token"⟩ := by
      unfold validateTokensDifferent
      rw [if_pos (by simp [hteq])]
    simp [submitStart, hva, hvt]

/-- Witness for C7: the two scenario states of the spec (amount "0"; equal
tokens with a valid amount). -/
theorem submit_validates_before_executor_witness :
    (submitStart { initialState with formData := ⟨"ETH", "USDC", "0", ""⟩ }).error =
      "Amount must be greater than 0" ∧
    (submitStart { initialState with
        formData := ⟨"ETH", "ETH", "2", ""⟩ }).error = "Cannot swap the same token" := by
  refine ⟨((submit_validates_before_executor
      { initialState with formData := ⟨"ETH", "USDC", "0", ""⟩ }).2.2.1 rfl).1, ?_⟩
  exact ((submit_validates_before_executor
      { initialState with formData := ⟨"ETH", "ETH", "2", ""⟩ }).2.2.2 (by decide) rfl).1


end SwapCore

namespace SwapCore

/-- C8: for a validated submission, a successful resolution clears both
amount fields while retaining the token selection, and a failed resolution
(SettlementError) leaves `formData` — in particular `fromAmount`/`toAmount` —
exactly at its pre-submit value, sets the swap error for retry, and returns
the machine to the idle (`isSwapping = false`) state. -/
theorem submit_resolution_clears_or_preserves (s : SysState)
    (h1 : validateSwapAmount s.formData.fromAmount .fromAmountField = none)
    (h2 : validateTokensDifferent s.formData.fromToken s.formData.toToken = none) :
    (∀ now suffix,
      (submitResolve (submitStart s) (.success now suffix)).formData.fromAmount = "" ∧
      (submitResolve (submitStart s) (.success now suffix)).formData.toAmount = "" ∧
      (submitResolve (submitStart s) (.success now suffix)).formData.fromToken =
        s.formData.fromToken ∧
      (submitResolve (submitStart s) (.success now suffix)).formData.toToken =
        s.formData.toToken) ∧
    (submitResolve (submitStart s) .failure).formData = s.formData ∧
    (submitResolve (submitStart s) .failure).swapError =
      some "Transaction failed. Please try again." ∧
    (submitResolve (submitStart s) .failure).isSwapping = false := by
  have hs : submitStart s =
      { s with
        error := ""
        swapError := none
        isSwapping := true
        pendingSwap := some (s.formData, exchangeRate s)
        executorCalls := s.executorCalls + 1 } := by
    simp only [submitStart, h1, h2]
  rw [hs]
  exact ⟨fun now suffix => ⟨rfl, rfl, rfl, rfl⟩, rfl, rfl, rfl⟩

/-- Witness for C8 at concrete validated states, both outcomes. -/
theorem submit_resolution_clears_or_preserves_witness :
    (submitResolve (submitStart { initialState with
        formData := ⟨"ETH", "USDC", "2", ""⟩ }) SwapOutcome.failure).formData =
      ({ initialState with formData := ⟨"ETH", "USDC", "2", ""⟩ } : SysState).formData ∧
    (submitResolve (submitStart { initialState with
        formData := ⟨"ETH", "USDC", "2", ""⟩ }) SwapOutcome.failure).swapError =
      some "Transaction failed. Please try again." ∧
    (submitResolve (submitStart { initialState with
        formData := ⟨"ETH", "USDC", "2", "7000.000000"⟩ })
        (SwapOutcome.success 0 "x")).formData.fromAmount = "" := by
  refine ⟨?_, ?_, ?_⟩
  · exact (submit_resolution_clears_or_preserves
      { initialState with formData := ⟨"ETH", "USDC", "2", ""⟩ } (by decide) (by decide)).2.1
  · exact (submit_resolution_clears_or_preserves
      { initialState with formData := ⟨"ETH", "USDC", "2", ""⟩ } (by decide) (by decide)).2.2.1
  · exact ((submit_resolution_clears_or_preserves
      { initialState with formData := ⟨"ETH", "USDC", "2", "7000.000000"⟩ }
      (by decide) (by decide)).1 0 "x").1

end SwapCore

namespace SwapCore

theorem rateEffect_amount_of_eq (t : SysState) (f : AmountField) (h : t.lastUpdatedField = f) :
    amountOf (rateEffect t) f = amountOf t f := by
  rw [← h]
  exact rateEffect_amount_last t

/-- C1: the rate-change recomputation (`useEffect` on `[exchangeRate]`)
writes only the field opposite to `lastUpdatedField`, computing it from the
current value of the last-updated field's amount and the new rate; it never
overwrites the last-updated field's value, all other state is untouched, and
after a subsequent `edit(f, v)` on a field `f` a recomputation still leaves
`f`'s freshly edited value `v` intact (the functional `setFormData(prev => …)`
reads the committed state at resolution time). -/
theorem rate_recalc_targets_only_counterpart (s : SysState) :
    amountOf (rateEffect s) s.lastUpdatedField = amountOf s s.lastUpdatedField ∧
    (rateEffect s).lastUpdatedField = s.lastUpdatedField ∧
    (rateEffect s).formData.fromToken = s.formData.fromToken ∧
    (rateEffect s).formData.toToken = s.formData.toToken ∧
    (rateEffect s).error = s.error ∧
    (rateEffect s).isSwapping = s.isSwapping ∧
    (rateEffect s).lastTransaction = s.lastTransaction ∧
    (rateEffect s).prices = s.prices ∧
    (0 < exchangeRate s → amountOf s s.lastUpdatedField ≠ "" →
      amountOf (rateEffect s) s.lastUpdatedField.other =
        (match s.lastUpdatedField with
          | AmountField.fromField => convertForward s.formData.fromAmount (exchangeRate s)
          | AmountField.toField => convertBackward s.formData.toAmount (exchangeRate s))) ∧
    ((¬ 0 < exchangeRate s ∨ amountOf s s.lastUpdatedField = "") → rateEffect s = s) ∧
    (∀ f v, matchesAmountPattern v = true →
      amountOf (rateEffect (editAmount s f v)) f = v) := by
  refine ⟨rateEffect_amount_last s, ?_, ?_, ?_, ?_, ?_, ?_, ?_, ?_, rateEffect_eq_self, ?_⟩
  · rcases rateEffect_cases s with h | ⟨v, h, _⟩ | ⟨v, h, _⟩ <;> rw [h]
  · rcases rateEffect_cases s with h | ⟨v, h, _⟩ | ⟨v, h, _⟩ <;> rw [h]
  · rcases rateEffect_cases s with h | ⟨v, h, _⟩ | ⟨v, h, _⟩ <;> rw [h]
  · rcases rateEffect_cases s with h | ⟨v, h, _⟩ | ⟨v, h, _⟩ <;> rw [h]
  · rcases rateEffect_cases s with h | ⟨v, h, _⟩ | ⟨v, h, _⟩ <;> rw [h]
  · rcases rateEffect_cases s with h | ⟨v, h, _⟩ | ⟨v, h, _⟩ <;> rw [h]
  · rcases rateEffect_cases s with h | ⟨v, h, _⟩ | ⟨v, h, _⟩ <;> rw [h]
  · intro hr ha
    cases hl : s.lastUpdatedField with
    | fromField =>
      have ha2 : s.formData.fromAmount ≠ "" := by
        rw [hl] at ha
        exact ha
      rw [rateEffect_eq_of_from hr hl ha2]
      rfl
    | toField =>
      have ha2 : s.formData.toAmount ≠ "" := by
        rw [hl] at ha
        exact ha
      rw [rateEffect_eq_of_to hr hl ha2]
      rfl
  · intro f v hwf
    cases f with
    | fromField =>
      have hacc : handleFromAmountChange s v =
          { s with
            error := ""
            lastUpdatedField := .fromField
            formData :=
              { s.formData with
                fromAmount := v
                toAmount := convertForward v (exchangeRate s) } } := by
        unfold handleFromAmountChange
        rw [if_neg (by simp [hwf])]
      show amountOf (rateEffect (handleFromAmountChange s v)) AmountField.fromField = v
      rw [hacc, rateEffect_amount_of_eq _ _ rfl]
      rfl
    | toField =>
      have hacc : handleToAmountChange s v =
          { s with
            error := ""
            lastUpdatedField := .toField
            formData :=
              { s.formData with
                toAmount := v
                fromAmount := convertBackward v (exchangeRate s) } } := by
        unfold handleToAmountChange
        rw [if_neg (by simp [hwf])]
      show amountOf (rateEffect (handleToAmountChange s v)) AmountField.toField = v
      rw [hacc, rateEffect_amount_of_eq _ _ rfl]
      rfl

/-- Witness for C1: an edit followed by a recomputation keeps the edited
value; at the initial state (no rate) the effect is the identity. -/
theorem rate_recalc_targets_only_counterpart_witness :
    amountOf (rateEffect (editAmount initialState AmountField.fromField "1"))
      AmountField.fromField = "1" ∧
    rateEffect initialState = initialState :=
  ⟨(rate_recalc_targets_only_counterpart initialState).2.2.2.2.2.2.2.2.2.2
      AmountField.fromField "1" (by decide),
    (rate_recalc_targets_only_counterpart initialState).2.2.2.2.2.2.2.2.2.1 (Or.inr rfl)⟩

end SwapCore

namespace SwapCore

theorem pricesFold_mem :
    ∀ (l : List ApiToken) (acc : TokenPrice) (c : String) (p : ℚ),
      (l.foldl (fun acc t => fun c2 => if c2 = t.currency then t.price else acc c2) acc) c =
          some p →
        (∃ t ∈ l, t.currency = c ∧ t.price = some p) ∨ acc c = some p := by
  intro l
  induction l with
  | nil => exact fun acc c p h => Or.inr h
  | cons t l ih =>
    intro acc c p h
    rw [List.foldl_cons] at h
    rcases ih _ c p h with h1 | h2
    · obtain ⟨t2, ht2, h3, h4⟩ := h1
      exact Or.inl ⟨t2, List.mem_cons_of_mem t ht2, h3, h4⟩
    · by_cases hc : c = t.currency
      · rw [if_pos hc] at h2
        exact Or.inl ⟨t, List.mem_cons_self t l, hc.symm, h2⟩
      · rw [if_neg hc] at h2
        exact Or.inr h2

/-- C6 (amended): after every refresh, on success the price table is
atomically and wholly replaced by exactly the fetched entries whose price is
present (`t.price != null` is the only filter) and the feed error is cleared,
with `formData` untouched; on failure the table is cleared to empty (no stale
or partial entries) and the error is set.  Every stored price originates in
the response, so every key maps to a price `> 0` provided all prices present
in the response are `> 0` — the code itself does not enforce positivity (see
the counterexample). -/
theorem refresh_replaces_or_clears (s : SysState) (data : List ApiToken) :
    (refreshOk s data).prices = pricesMapOf data ∧
    (refreshOk s data).pricesError = none ∧
    (refreshOk s data).formData = s.formData ∧
    (∀ c, (refreshFail s).prices c = none) ∧
    (refreshFail s).pricesError =
      some "Failed to load token prices. Please try again later." ∧
    (∀ c p, pricesMapOf data c = some p →
      ∃ t ∈ data, t.currency = c ∧ t.price = some p) ∧
    ((∀ t ∈ data, ∀ p, t.price = some p → 0 < p) →
      ∀ c p, (refreshOk s data).prices c = some p → 0 < p) := by
  have hmem : ∀ c p, pricesMapOf data c = some p →
      ∃ t ∈ data, t.currency = c ∧ t.price = some p := by
    intro c p h
    unfold pricesMapOf at h
    rcases pricesFold_mem _ _ c p h with h1 | h2
    · obtain ⟨t, ht, h3, h4⟩ := h1
      exact ⟨t, (List.mem_filter.mp ht).1, h3, h4⟩
    · exact absurd h2 (by simp [emptyPrices])
  refine ⟨rfl, rfl, rfl, fun c => rfl, rfl, hmem, ?_⟩
  intro hpos c p h
  obtain ⟨t, ht, hc, hp⟩ := hmem c p h
  exact hpos t ht p hp

/-- Witness for C6 at a one-entry response with a positive price. -/
theorem refresh_replaces_or_clears_witness :
    (refreshOk initialState [⟨"ETH", some 3500, "2024-01-01"⟩]).pricesError = none ∧
      (0 : ℚ) < 3500 := by
  have h := refresh_replaces_or_clears initialState [⟨"ETH", some 3500, "2024-01-01"⟩]
  refine ⟨h.2.1, ?_⟩
  refine h.2.2.2.2.2.2 ?_ "ETH" 3500 ?_
  · intro t ht p hp
    rw [List.mem_singleton] at ht
    subst ht
    rw [Option.some_inj] at hp
    rw [← hp]
    norm_num
  · decide

/-- Counterexample to C6 as stated: a successful refresh of a response
containing the entry `{currency: "BTC", price: 0}` stores the key `"BTC"`
with price `0` (the filter `t.price != null` keeps it), so "every key maps to
a price > 0" fails on the code. -/
theorem refreshOk_can_store_zero_price :
    (refreshOk initialState [⟨"BTC", some 0, "2024-01-01"⟩]).prices "BTC" = some 0 ∧
      (refreshOk initialState [⟨"BTC", some 0, "2024-01-01"⟩]).pricesError = none ∧
      ¬ (0 : ℚ) < 0 := by
  refine ⟨by decide, rfl, lt_irrefl 0⟩

end SwapCore

namespace SwapCore

/-- C9: in every reachable state, `fromAmount` and `toAmount` each match the
pattern "optional digits, optional single decimal point, optional digits"
(which includes the empty string): an edit whose raw value fails the
syntactic check leaves the form state unchanged (only the syntax error is
surfaced), and every value written by a conversion is either empty or a
well-formed `toFixed(6)` rendering. -/
theorem amounts_always_wellformed :
    (∀ s, Reachable s →
      matchesAmountPattern s.formData.fromAmount = true ∧
      matchesAmountPattern s.formData.toAmount = true) ∧
    (∀ s v, v ≠ "" → matchesAmountPattern v = false →
      (handleFromAmountChange s v).formData = s.formData ∧
      (handleToAmountChange s v).formData = s.formData ∧
      (handleFromAmountChange s v).error = "Please enter a valid number") := by
  constructor
  · intro s hs
    induction hs with
    | init => exact ⟨rfl, rfl⟩
    | editFrom s v _ ih => exact handleFromAmountChange_wf v ih
    | editTo s v _ ih => exact handleToAmountChange_wf v ih
    | tokenFrom s c _ ih => exact ih
    | tokenTo s c _ ih => exact ih
    | swapTokens s _ ih => exact ⟨ih.2, ih.1⟩
    | rateRecalc s _ ih =>
      rcases rateEffect_cases s with h | ⟨v, h, hv⟩ | ⟨v, h, hv⟩
      · rw [h]
        exact ih
      · rw [h]
        exact ⟨ih.1, hv⟩
      · rw [h]
        exact ⟨hv, ih.2⟩
    | maxClick s _ ih => exact handleFromAmountChange_wf "10" ih
    | submit s _ ih =>
      rw [submitClick_formData s]
      exact ih
    | resolve s o _ ih =>
      unfold submitResolve
      split
      · exact ih
      · split
        · exact ih
        · exact ⟨matchesAmountPattern_empty, matchesAmountPattern_empty⟩
    | pricesOk s data _ ih => exact ih
    | pricesFail s _ ih => exact ih
  · intro s v hne hwf
    have hg : (v != "" && !matchesAmountPattern v) = true := by
      simp [hwf, bne_iff_ne.mpr hne]
    unfold handleFromAmountChange handleToAmountChange
    rw [if_pos hg, if_pos hg]
    exact ⟨rfl, rfl, rfl⟩

/-- Witness for C9: a reachable state after an in-progress decimal edit, and
the rejection of a malformed edit. -/
theorem amounts_always_wellformed_witness :
    (matchesAmountPattern
        (handleFromAmountChange initialState "1.5").formData.fromAmount = true ∧
      matchesAmountPattern
        (handleFromAmountChange initialState "1.5").formData.toAmount = true) ∧
    (handleFromAmountChange initialState "1.2.3").formData = initialState.formData :=
  ⟨amounts_always_wellformed.1 _ (Reachable.editFrom initialState "1.5" Reachable.init),
    (amounts_always_wellformed.2 initialState "1.2.3" (by decide) (by decide)).1⟩

/-- C10: every `SwapTransaction` that `executeSwap` constructs or stores as
`lastTransaction` has status `completed` — the statuses `pending` and
`failed` are never produced — and a failed settlement produces no transaction
record at all (`lastTransaction` is unchanged on failure). -/
theorem transactions_always_completed :
    (∀ s, Reachable s → ∀ tx, s.lastTransaction = some tx →
      tx.status = TxStatus.completed) ∧
    (∀ s, Reachable s →
      s.lastTransaction.all (fun tx => tx.status == TxStatus.completed) = true) ∧
    (∀ fd rate now suffix, (mkTransaction fd rate now suffix).status = TxStatus.completed) ∧
    (∀ s, (submitResolve s SwapOutcome.failure).lastTransaction = s.lastTransaction) := by
  have hfail : ∀ s : SysState,
      (submitResolve s SwapOutcome.failure).lastTransaction = s.lastTransaction := by
    intro s
    unfold submitResolve
    split
    · rfl
    · rfl
  have h1 : ∀ s, Reachable s → ∀ tx, s.lastTransaction = some tx →
      tx.status = TxStatus.completed := by
    intro s hs
    induction hs with
    | init =>
      intro tx h
      exact absurd h (by simp [initialState])
    | editFrom s v _ ih =>
      intro tx h
      exact ih tx ((handleFromAmountChange_lastTransaction s v).symm.trans h)
    | editTo s v _ ih =>
      intro tx h
      exact ih tx ((handleToAmountChange_lastTransaction s v).symm.trans h)
    | tokenFrom s c _ ih => exact fun tx h => ih tx h
    | tokenTo s c _ ih => exact fun tx h => ih tx h
    | swapTokens s _ ih => exact fun tx h => ih tx h
    | rateRecalc s _ ih =>
      intro tx h
      exact ih tx ((rateEffect_lastTransaction s).symm.trans h)
    | maxClick s _ ih =>
      intro tx h
      exact ih tx ((handleFromAmountChange_lastTransaction s "10").symm.trans h)
    | submit s _ ih =>
      intro tx h
      exact ih tx ((submitClick_lastTransaction s).symm.trans h)
    | resolve s o _ ih =>
      intro tx h
      unfold submitResolve at h
      split at h
      · exact ih tx h
      · split at h
        · exact ih tx h
        · rw [Option.some_inj] at h
          rw [← h]
          rfl
    | pricesOk s data _ ih => exact fun tx h => ih tx h
    | pricesFail s _ ih => exact fun tx h => ih tx h
  refine ⟨h1, ?_, fun fd rate now suffix => rfl, hfail⟩
  intro s hs
  cases h : s.lastTransaction with
  | none => rfl
  | some tx =>
    have := h1 s hs tx h
    simp [Option.all, this]

/-- Witness for C10: a full reachable trace (edit, successful price refresh,
submit, successful settlement) whose stored transaction is `completed`. -/
theorem transactions_always_completed_witness :
    (submitResolve (submitClick (refreshOk (handleFromAmountChange initialState "2")
          [⟨"ETH", some 1, "d"⟩, ⟨"USDC", some 1, "d"⟩]))
        (SwapOutcome.success 0 "x")).lastTransaction.all
      (fun tx => tx.status == TxStatus.completed) = true :=
  transactions_always_completed.2.1 _
    (Reachable.resolve _ _ (Reachable.submit _ (Reachable.pricesOk _ _
      (Reachable.editFrom _ _ Reachable.init))))

end SwapCore
